import Mathlib

/-!
Shallow embedding of `agiview2bmp` (src/main.c) — a converter from Sierra AGI
VIEW resources to bitmaps — together with theorems checking the program's
specification against this embedding.

Modelling conventions:
* The input file is a byte source `Src`: a length plus a byte-valued function
  of the position (`fopen`/`fseek`/`fread` become absolute-position reads).
* `fread` never has its return value checked in main.c; a read past the end
  of the file leaves the destination object unchanged, which the readers
  model by returning the caller-supplied previous value (`old`).  All
  destination objects of interest are zero-initialized (`View view = { 0 }`).
* C `Uint8` / `Uint16` fields are `Nat` with explicit `% 256` / `% 65536`
  where the C code can overflow (`Loop.total_width` accumulation,
  `Cel.header_offset` and `Cel.data_offset` stores).
* `SDL_WriteSurfacePixel` calls become a list of `Px` records in call order.
-/

/-- One entry of the 16-color EGA palette `pal` in main.c, as (r, g, b). -/
def pal : List (Nat × Nat × Nat) :=
  [ (0x00, 0x00, 0x00), (0x00, 0x00, 0xAA), (0x00, 0xAA, 0x00), (0x00, 0xAA, 0xAA),
    (0xAA, 0x00, 0x00), (0xAA, 0x00, 0xAA), (0xAA, 0x55, 0x00), (0xAA, 0xAA, 0xAA),
    (0x55, 0x55, 0x55), (0x55, 0x55, 0xFF), (0x55, 0xFF, 0x55), (0x55, 0xFF, 0xFF),
    (0xFF, 0x55, 0x55), (0xFF, 0x55, 0xFF), (0xFF, 0xFF, 0x55), (0xFF, 0xFF, 0xFF) ]

/-- Palette lookup `pal[color]`; the decoded color index is always < 16. -/
def palGet (color : Nat) : Nat × Nat × Nat := pal.getD color (0, 0, 0)

/-- The `Cel` struct of main.c (field order as in the C struct).
`is_mirrored` is kept as a `Nat` in {0, 1} mirroring the C `Uint8`. -/
structure Cel where
  header_offset : Nat
  data_offset : Nat
  width : Nat
  height : Nat
  transparency_color : Nat
  is_mirrored : Nat
  unmirrored_loop_num : Nat
deriving DecidableEq

/-- The `Loop` struct of main.c.  `num_cels` is `cels.length`;
`total_width` and `total_height` are the mutable derived `Uint8` fields,
zero after decoding and written by `GetSurfaceSize`. -/
structure Loop where
  offset : Nat
  total_width : Nat
  total_height : Nat
  cels : List Cel
deriving DecidableEq

/-- The `View` struct of main.c. `num_loops` is `loops.length`. -/
structure View where
  loops : List Loop
deriving DecidableEq

/-- Abstract random-access byte source standing for the opened file:
`size` bytes, byte at position `p` being `data p % 256`. -/
structure Src where
  size : Nat
  data : Nat → Nat

/-- The byte stored at position `p` of the source. -/
def u8At (s : Src) (p : Nat) : Nat := s.data p % 256

/-- The little-endian 16-bit value stored at positions `p`, `p+1`. -/
def u16At (s : Src) (p : Nat) : Nat := u8At s p + 256 * u8At s (p + 1)

/-- `fread` of one byte at absolute position `pos`.  Returns the value read
and the new position; past the end of the file nothing is read, so the
destination keeps its previous contents `old` and the position is unmoved. -/
def readU8 (s : Src) (pos old : Nat) : Nat × Nat :=
  if pos + 1 ≤ s.size then (u8At s pos, pos + 1) else (old, pos)

/-- `fread` of one little-endian `Uint16` at absolute position `pos`,
with the same convention for reads past the end of the file. -/
def readU16 (s : Src) (pos old : Nat) : Nat × Nat :=
  if pos + 2 ≤ s.size then (u16At s pos, pos + 2) else (old, pos)

/-- A run of `n` consecutive `Uint16` reads (the loop-offset and
cel-offset reading loops of `ViewToBMP`); destinations zero-initialized. -/
def readU16List (s : Src) (pos : Nat) : Nat → List Nat × Nat
  | 0 => ([], pos)
  | Nat.succ n =>
    let r := readU16 s pos 0
    let rest := readU16List s r.2 n
    (r.1 :: rest.1, rest.2)

/-- Reading one cel header in `ViewToBMP`: seek to the (already wrapped)
header offset `h`, read `width`, `height`, `info`, decompose the info byte
by the C masks, and store `ftell` into the `Uint16` field `data_offset`. -/
def decodeCel (s : Src) (h : Nat) : Cel :=
  let rw := readU8 s h 0
  let rh := readU8 s rw.2 0
  let ri := readU8 s rh.2 0
  { header_offset := h
    data_offset := ri.2 % 65536
    width := rw.1
    height := rh.1
    transparency_color := ri.1 &&& 0x0F
    is_mirrored := (ri.1 &&& 0x80) >>> 7
    unmirrored_loop_num := (ri.1 &&& 0x70) >>> 4 }

/-- Reading one loop in `ViewToBMP`: seek to the loop offset, read
`num_cels`, read that many relative cel offsets, store each absolute
header offset into a `Uint16` field (hence `% 65536`), then read each
cel header.  The derived totals stay zero-initialized. -/
def decodeLoop (s : Src) (off : Nat) : Loop :=
  let rn := readU8 s off 0
  let rels := (readU16List s rn.2 rn.1).1
  { offset := off
    total_width := 0
    total_height := 0
    cels := rels.map (fun r => decodeCel s ((off + r) % 65536)) }

/-- The structural decoding phase of `ViewToBMP` (lines 150–194 of main.c):
`num_loops` from offset 2, loop offsets from offset 5, then each loop. -/
def decodeView (s : Src) : View :=
  let rn := readU8 s 2 0
  let offs := (readU16List s 5 rn.1).1
  { loops := offs.map (fun o => decodeLoop s o) }

/-- The same structural layout written from the specification's wording:
`num_loops` at absolute offset 2, little-endian u16 loop offsets from
absolute offset 5, each loop's cel count at its offset followed by relative
cel offsets made absolute by plain addition, 3-byte cel headers whose info
byte has bit 7 = `is_mirrored`, bits 6–4 = `unmirrored_loop_num`,
bits 3–0 = `transparency_color`, and `data_offset` = the position right
after the header. -/
def viewSpec (s : Src) : View :=
  { loops := (List.range (u8At s 2)).map (fun i =>
      let off := u16At s (5 + 2 * i)
      { offset := off
        total_width := 0
        total_height := 0
        cels := (List.range (u8At s off)).map (fun j =>
          let h := off + u16At s (off + 1 + 2 * j)
          { header_offset := h
            data_offset := h + 3
            width := u8At s h
            height := u8At s (h + 1)
            transparency_color := u8At s (h + 2) % 16
            is_mirrored := u8At s (h + 2) / 128
            unmirrored_loop_num := u8At s (h + 2) / 16 % 8 }) }) }

/-- Sum of a loop's cel widths, without the `Uint8` wrap (the quantity the
specification calls the loop's total width). -/
def sumWidths (l : Loop) : Nat := (l.cels.map Cel.width).sum

/-- Maximum of a loop's cel heights, 0 when the loop has no cels. -/
def maxHeight (l : Loop) : Nat := (l.cels.map Cel.height).foldl max 0

/-- The inner loop of `GetSurfaceSize`: accumulate `total_width` in a
`Uint8` (hence the wrap at each `+=`) and `total_height` by comparison,
starting from the fields' current values. -/
def sizeLoop (l : Loop) : Loop :=
  { l with
    total_width := l.cels.foldl (fun w c => (w + c.width) % 256) l.total_width
    total_height := l.cels.foldl (fun h c => if c.height > h then c.height else h) l.total_height }

/-- `GetSurfaceSize` of main.c: updates every loop's derived totals in
place, takes the running maximum of the (wrapped) total widths and the sum
of the total heights, and doubles the width.  Returns the mutated view
together with the (w, h) of the `SDL_Rect` result. -/
def GetSurfaceSize (view : View) : View × Nat × Nat :=
  let loops := view.loops.map sizeLoop
  ( { loops := loops },
    2 * loops.foldl (fun w l => if l.total_width > w then l.total_width else w) 0,
    loops.foldl (fun h l => h + l.total_height) 0 )

/-- RLE decoding of one cel row (the `while (1)` loop of `ViewToBMP`):
read bytes until a zero byte, which is consumed and emits nothing; every
nonzero byte `b` yields the run `((b >> 4) & 0x0F, b & 0x0F)`.  Returns
the runs of the row and the bytes left after the terminator, or `none`
when the stream ends before a terminator byte. -/
def decodeRow : List Nat → Option (List (Nat × Nat) × List Nat)
  | [] => none
  | b :: rest =>
    if b = 0 then some ([], rest)
    else
      match decodeRow rest with
      | none => none
      | some pr => some (((b >>> 4) &&& 0x0F, b &&& 0x0F) :: pr.1, pr.2)

/-- One pixel written by `SDL_WriteSurfacePixel`, in call order. -/
structure Px where
  x : Int
  y : Int
  r : Nat
  g : Nat
  b : Nat
  a : Nat
deriving DecidableEq

/-- The RGBA chosen for one source pixel: zero-initialized channels,
overwritten with the palette entry and alpha 255 exactly when the color
differs from the cel's transparency color. -/
def runPixel (trans color : Nat) : Nat × Nat × Nat × Nat :=
  if color ≠ trans then ((palGet color).1, (palGet color).2.1, (palGet color).2.2, 255)
  else (0, 0, 0, 0)

/-- The `while (count--)` loop of `ViewToBMP`: for each of the `count`
source pixels of one run, write the pixel twice (the doubled pixel),
advancing `x` by `step` after each write. -/
def drawRun (trans color : Nat) : Nat → Int → Int → Int → List Px
  | 0, _, _, _ => []
  | Nat.succ n, x, step, y =>
    let p := runPixel trans color
    ⟨x, y, p.1, p.2.1, p.2.2.1, p.2.2.2⟩ ::
      ⟨x + step, y, p.1, p.2.1, p.2.2.1, p.2.2.2⟩ ::
      drawRun trans color n (x + 2 * step) step y

/-- All pixels written for one decoded row, run after run; after a run of
`n` source pixels the cursor has advanced by `2 * step * n`. -/
def drawRuns (trans : Nat) : List (Nat × Nat) → Int → Int → Int → List Px
  | [], _, _, _ => []
  | run :: rest, x, step, y =>
    drawRun trans run.1 run.2 x step y ++
      drawRuns trans rest (x + 2 * step * run.2) step y

/-- Total number of source pixels encoded by a list of runs. -/
def sumCounts (runs : List (Nat × Nat)) : Nat := (runs.map Prod.snd).sum

/-- The draw-direction choice of `ViewToBMP` (lines 209–218): starting
raster x and step for one row of the cel `c` composited inside loop
index `i` whose left edge is `cel_x`. -/
def rowStartStep (c : Cel) (i : Nat) (cel_x : Nat) : Int × Int :=
  if c.is_mirrored ≠ 0 ∧ c.unmirrored_loop_num ≠ i then
    ((cel_x : Int) + (c.width : Int) * 2 - 1, -1)
  else
    ((cel_x : Int), 1)

/-- Compositing one source row of the cel `c` inside loop index `i`:
choose start and direction, then write the doubled pixels of every run. -/
def drawCelRow (c : Cel) (i : Nat) (cel_x cel_y y : Nat)
    (runs : List (Nat × Nat)) : List Px :=
  let ss := rowStartStep c i cel_x
  drawRuns c.transparency_color runs ss.1 ss.2 ((cel_y : Int) + (y : Int))

/-- One invocation of `ViewToBMP`: `none` when `fopen` fails (the function
prints and returns with no output), otherwise the decoded view that the
rest of the pipeline turns into an output bitmap. -/
def processFile : Option Src → Option View
  | none => none
  | some s => some (decodeView s)

/-- The argument loop of `main`: every input file is handed to
`ViewToBMP` in order, each with its own freshly zero-initialized state. -/
def processAll (files : List (Option Src)) : List (Option View) :=
  files.map processFile

/-- A well-formed 15-byte VIEW file: 1 loop at offset 7 with 1 cel whose
relative offset is 3, so a 3-byte cel header at 10 (width 2, height 1,
info 0x95) followed by the RLE row [0x12, 0x00]. -/
def testBytes : List Nat :=
  [0, 0, 1, 0, 0, 7, 0, 1, 3, 0, 2, 1, 0x95, 0x12, 0x00]

/-- The well-formed test file as a byte source. -/
def testSrc : Src := ⟨15, fun p => testBytes.getD p 0⟩

/-- A 20-byte VIEW file whose single loop has two cels of width 200 each
(headers at 12 and 17), so the loop's true width sum is 400 > 255. -/
def wideBytes : List Nat :=
  [0, 0, 1, 0, 0, 7, 0, 2, 5, 0, 10, 0, 200, 1, 0, 0, 0, 200, 1, 0]

/-- The wide two-cel test file as a byte source. -/
def wideSrc : Src := ⟨20, fun p => wideBytes.getD p 0⟩

/-- A 2-byte input file: the very first read of `ViewToBMP` (one byte at
absolute offset 2 for `num_loops`) already requests more than remains. -/
def truncSrc : Src := ⟨2, fun p => if p = 0 then 1 else 2⟩

/-- A loop as the decoder leaves it whose cel widths sum to 400. -/
def wrapLoop : Loop :=
  { offset := 7, total_width := 0, total_height := 0,
    cels := [ { header_offset := 12, data_offset := 15, width := 200, height := 1,
                transparency_color := 0, is_mirrored := 0, unmirrored_loop_num := 0 },
              { header_offset := 17, data_offset := 20, width := 200, height := 1,
                transparency_color := 0, is_mirrored := 0, unmirrored_loop_num := 0 } ] }

/-- A one-loop view around `wrapLoop`. -/
def wrapView : View := { loops := [wrapLoop] }

/-- A freshly decoded view with loop width sums 10, 4, 7 and loop height
maxima 5, 3, 8 (the specification's round-trip sizing example). -/
def exView : View :=
  { loops :=
      [ { offset := 0, total_width := 0, total_height := 0,
          cels := [ { header_offset := 0, data_offset := 0, width := 10, height := 5,
                      transparency_color := 0, is_mirrored := 0, unmirrored_loop_num := 0 } ] },
        { offset := 0, total_width := 0, total_height := 0,
          cels := [ { header_offset := 0, data_offset := 0, width := 4, height := 3,
                      transparency_color := 0, is_mirrored := 0, unmirrored_loop_num := 0 } ] },
        { offset := 0, total_width := 0, total_height := 0,
          cels := [ { header_offset := 0, data_offset := 0, width := 7, height := 8,
                      transparency_color := 0, is_mirrored := 0, unmirrored_loop_num := 0 } ] } ] }

/-- A mirrored cel (width 2) referencing loop 0 for its unmirrored data. -/
def mirrorCel : Cel :=
  { header_offset := 0, data_offset := 0, width := 2, height := 1,
    transparency_color := 0, is_mirrored := 1, unmirrored_loop_num := 0 }

/-! ## Helper lemmas -/

/-- The running-maximum update written with a comparison equals `max`. -/
theorem ite_max (a b : Nat) : (if b > a then b else a) = max a b := by
  rcases le_or_lt b a with h | h
  · rw [if_neg (by omega), Nat.max_eq_left h]
  · rw [if_pos h, Nat.max_eq_right (Nat.le_of_lt h)]

/-- Peeling two elements off the front of a range. -/
theorem range_two_add (m : Nat) :
    List.range (m + 1 + 1) = 0 :: 1 :: (List.range m).map (fun k => k + 2) := by
  rw [List.range_succ_eq_map, List.range_succ_eq_map]
  simp only [List.map_cons, List.map_map]
  rfl

/-- The x coordinates written for one run of `n` source pixels form the
arithmetic progression `x, x + s, …` of length `2 * n`. -/
theorem drawRun_map_x (t c : Nat) :
    ∀ (n : Nat) (x s y : Int),
      (drawRun t c n x s y).map Px.x =
        (List.range (2 * n)).map (fun k : Nat => x + s * (k : Int)) := by
  intro n
  induction n with
  | zero => intro x s y; simp [drawRun]
  | succ n ih =>
    intro x s y
    have h2 : 2 * (n + 1) = (2 * n) + 1 + 1 := by ring
    rw [h2, range_two_add]
    simp only [drawRun, List.map_cons, List.map_map, ih]
    congr 1
    · simp
    congr 1
    · simp
    apply List.map_congr_left
    intro k _
    simp only [Function.comp_apply]
    push_cast
    ring

/-- The x coordinates written for a whole row of runs form the arithmetic
progression of length `2 * sumCounts runs` starting at `x` with step `s`. -/
theorem drawRuns_map_x (t : Nat) :
    ∀ (runs : List (Nat × Nat)) (x s y : Int),
      (drawRuns t runs x s y).map Px.x =
        (List.range (2 * sumCounts runs)).map (fun k : Nat => x + s * (k : Int)) := by
  intro runs
  induction runs with
  | nil => intro x s y; simp [drawRuns, sumCounts]
  | cons run rest ih =>
    intro x s y
    have h2 : 2 * sumCounts (run :: rest) = 2 * run.2 + 2 * sumCounts rest := by
      simp [sumCounts]; ring
    rw [h2, List.range_add]
    simp only [drawRuns, List.map_append, List.map_map, drawRun_map_x, ih]
    congr 1
    apply List.map_congr_left
    intro k _
    simp only [Function.comp_apply]
    push_cast
    ring

/-- Every pixel of one run is written on the row `y`. -/
theorem drawRun_map_y (t c : Nat) :
    ∀ (n : Nat) (x s y : Int),
      (drawRun t c n x s y).map Px.y = List.replicate (2 * n) y := by
  intro n
  induction n with
  | zero => intro x s y; simp [drawRun]
  | succ n ih =>
    intro x s y
    have h2 : 2 * (n + 1) = 1 + 1 + 2 * n := by ring
    rw [h2, List.replicate_add, List.replicate_add]
    simp [drawRun, ih]

/-- Every pixel of a whole row of runs is written on the row `y`. -/
theorem drawRuns_map_y (t : Nat) :
    ∀ (runs : List (Nat × Nat)) (x s y : Int),
      (drawRuns t runs x s y).map Px.y = List.replicate (2 * sumCounts runs) y := by
  intro runs
  induction runs with
  | nil => intro x s y; simp [drawRuns, sumCounts]
  | cons run rest ih =>
    intro x s y
    have h2 : 2 * sumCounts (run :: rest) = 2 * run.2 + 2 * sumCounts rest := by
      simp [sumCounts]; ring
    rw [h2, List.replicate_add]
    simp [drawRuns, drawRun_map_y, ih]

/-- Folding the wrapped `Uint8` accumulation from `a % 256` gives the plain
sum reduced modulo 256. -/
theorem foldl_mod256 :
    ∀ (cs : List Cel) (a : Nat),
      cs.foldl (fun w c => (w + c.width) % 256) (a % 256) =
        (a + (cs.map Cel.width).sum) % 256 := by
  intro cs
  induction cs with
  | nil => intro a; simp
  | cons c cs ih =>
    intro a
    have h1 : (a % 256 + c.width) % 256 = (a + c.width) % 256 := by omega
    simp only [List.foldl_cons, h1]
    rw [ih (a + c.width)]
    simp only [List.map_cons, List.sum_cons]
    omega

/-- On a loop whose `total_width` field is still zero-initialized,
`sizeLoop` stores the sum of the cel widths reduced modulo 256. -/
theorem sizeLoop_width (l : Loop) (h : l.total_width = 0) :
    (sizeLoop l).total_width = sumWidths l % 256 := by
  have h0 : l.total_width = 0 % 256 := by omega
  simp only [sizeLoop, h0, sumWidths]
  rw [foldl_mod256 l.cels 0]
  simp

/-- On a loop whose `total_height` field is still zero-initialized,
`sizeLoop` stores the maximum of the cel heights. -/
theorem sizeLoop_height (l : Loop) (h : l.total_height = 0) :
    (sizeLoop l).total_height = maxHeight l := by
  have hf : (fun h (c : Cel) => if c.height > h then c.height else h) =
      fun h (c : Cel) => max h c.height := by
    funext a c
    exact ite_max a c.height
  simp only [sizeLoop, h, maxHeight, hf, List.foldl_map]

/-! ## Claim theorems -/

/-- Claim C2: decoding one cel row's RLE stream stops at a zero byte,
which is consumed and emits nothing; every nonzero byte yields the run
(high nibble, low nibble); `[0x00]` gives an empty row, `[0x31, 0x00]`
one run of color 3 and length 1, `[0xA5, 0x00]` color 10 length 5; and a
run whose low nibble is 0 draws zero pixels while decoding continues. -/
theorem rle_row_decode :
    (∀ rest : List Nat, decodeRow (0 :: rest) = some ([], rest)) ∧
    (∀ (b : Nat) (rest : List Nat), b ≠ 0 →
      decodeRow (b :: rest) =
        (decodeRow rest).map
          (fun pr => (((b >>> 4) &&& 0x0F, b &&& 0x0F) :: pr.1, pr.2))) ∧
    decodeRow [0x00] = some ([], []) ∧
    decodeRow [0x31, 0x00] = some ([(3, 1)], []) ∧
    decodeRow [0xA5, 0x00] = some ([(10, 5)], []) ∧
    (∀ (t c : Nat) (x s y : Int), drawRun t c 0 x s y = []) := by
  refine ⟨?_, ?_, by decide, by decide, by decide, fun t c x s y => rfl⟩
  · intro rest
    simp [decodeRow]
  · intro b rest hb
    simp only [decodeRow, if_neg hb]
    cases h : decodeRow rest <;> simp

/-- Witness for C2 at the byte 0x20 (nonzero, low nibble 0): the run
(2, 0) is emitted and decoding continues with the next byte. -/
theorem rle_row_decode_witness :
    decodeRow (32 :: [0]) =
      (decodeRow [0]).map
        (fun pr => (((32 >>> 4) &&& 0x0F, 32 &&& 0x0F) :: pr.1, pr.2)) :=
  rle_row_decode.2.1 32 [0] (by decide)

/-- Claim C6: every pixel written for a run whose color equals the cel's
transparency color has alpha 0 regardless of the palette entry; every
pixel of any other run carries the palette RGB and alpha 255. -/
theorem transparency_alpha :
    ∀ (trans color : Nat), ∀ (n : Nat), ∀ (x s y : Int),
      ((drawRun trans color n x s y).all (fun p =>
        if color = trans then p.a == 0
        else p.r == (palGet color).1 && p.g == (palGet color).2.1 &&
          p.b == (palGet color).2.2 && p.a == 255)) = true := by
  intro trans color n
  induction n with
  | zero => intro x s y; simp [drawRun]
  | succ n ih =>
    intro x s y
    simp only [drawRun, List.all_cons, ih (x + 2 * s) s y, Bool.and_true]
    by_cases h : color = trans
    · simp [runPixel, h]
    · simp [runPixel, h]

/-- Claim C7: every decoded source pixel is written as two horizontally
consecutive raster pixels in the draw direction: a row of runs writes
exactly `2 * sumCounts runs` pixels, their x coordinates are the
consecutive positions `x, x + s, x + 2s, …`, and all lie on row `y`. -/
theorem pixel_doubling :
    ∀ (t : Nat) (runs : List (Nat × Nat)) (x s y : Int),
      (drawRuns t runs x s y).length = 2 * sumCounts runs ∧
      (drawRuns t runs x s y).map Px.x =
        (List.range (2 * sumCounts runs)).map (fun k : Nat => x + s * (k : Int)) ∧
      (drawRuns t runs x s y).map Px.y = List.replicate (2 * sumCounts runs) y := by
  intro t runs x s y
  refine ⟨?_, drawRuns_map_x t runs x s y, drawRuns_map_y t runs x s y⟩
  have h := congrArg List.length (drawRuns_map_x t runs x s y)
  simpa using h

/-- Claim C8: `main` hands each input file to `ViewToBMP` independently
and in order: the k-th output depends only on the k-th input, and a
failing file in the middle leaves the outputs of all other files
unchanged. -/
theorem per_file_isolation :
    ∀ (files pre post : List (Option Src)) (bad : Option Src) (k : Nat),
      (processAll files).length = files.length ∧
      (processAll files)[k]? = (files[k]?).map processFile ∧
      processAll (pre ++ bad :: post) =
        processAll pre ++ processFile bad :: processAll post := by
  intro files pre post bad k
  refine ⟨by simp [processAll], ?_, by simp [processAll]⟩
  simp [processAll]

/-- Claim C4 (code bug): on a 2-byte input the very first read of
`ViewToBMP` (the `num_loops` byte at offset 2) requests more bytes than
remain, yet decoding is not aborted: the zero-initialized `num_loops`
stands, the empty view is decoded to completion, and the pipeline still
produces an output for the file.  No `Truncated` error exists in main.c. -/
theorem truncated_read_no_abort :
    decodeView truncSrc = { loops := [] } ∧
    processFile (some truncSrc) = some { loops := [] } := by decide

/-- Claim C10: `Loop.total_width` is accumulated in an unsigned 8-bit
field, so the value `GetSurfaceSize` uses for canvas sizing is the sum of
the loop's cel widths reduced modulo 256; on a loop whose widths sum to
400 the canvas width is computed from the wrapped value. -/
theorem total_width_wraps :
    (∀ l : Loop, l.total_width = 0 →
      (sizeLoop l).total_width = sumWidths l % 256) ∧
    (GetSurfaceSize wrapView).2.1 = 2 * (sumWidths wrapLoop % 256) :=
  ⟨fun l h => sizeLoop_width l h, by decide⟩

/-- Witness for C10: the two-cel loop with widths 200 + 200 = 400 stores
400 % 256 = 144 in `total_width`. -/
theorem total_width_wraps_witness :
    wrapLoop.total_width = 0 ∧
    (sizeLoop wrapLoop).total_width = sumWidths wrapLoop % 256 :=
  ⟨rfl, total_width_wraps.1 wrapLoop rfl⟩

/-- Counterexample to claim C9: `GetSurfaceSize`, run during the
compositing phase on a freshly decoded view, does not leave the view
unchanged — it writes the loops' derived totals. -/
theorem compositor_mutates_totals_cex :
    (GetSurfaceSize exView).1 ≠ exView := by decide

/-- Claim C9 (amended): the compositing phase mutates only the loops'
derived `total_width` / `total_height` fields; the loop offsets, the
cels, and the number of loops are left exactly as decoded. -/
theorem compositor_readonly_amended :
    ∀ v : View,
      (GetSurfaceSize v).1.loops.map (fun l => (l.offset, l.cels)) =
        v.loops.map (fun l => (l.offset, l.cels)) ∧
      (GetSurfaceSize v).1.loops.length = v.loops.length := by
  intro v
  constructor
  · simp only [GetSurfaceSize, List.map_map]
    rfl
  · simp [GetSurfaceSize]

/-- Counterexample to claim C1: on the decoded two-cel view whose widths
sum to 400, the canvas width is not twice the maximal plain sum of cel
widths (it is 2 * (400 % 256) = 288, not 800). -/
theorem canvas_width_claim_cex :
    (GetSurfaceSize (decodeView wideSrc)).2.1 ≠
      2 * (((decodeView wideSrc).loops.map sumWidths).foldl max 0) := by
  decide

/-- Claim C1 (amended): for a freshly decoded view (all derived totals
still zero), the canvas width is twice the maximum over loops of the sum
of cel widths reduced modulo 256, the canvas height is the sum over loops
of the maximal cel height, and a loop with no cels contributes 0 to both. -/
theorem canvas_size_amended (v : View)
    (hz : ∀ l ∈ v.loops, l.total_width = 0 ∧ l.total_height = 0) :
    (GetSurfaceSize v).2.1 =
      2 * ((v.loops.map (fun l => sumWidths l % 256)).foldl max 0) ∧
    (GetSurfaceSize v).2.2 = (v.loops.map maxHeight).sum ∧
    (∀ l : Loop, l.cels = [] → sumWidths l % 256 = 0 ∧ maxHeight l = 0) := by
  refine ⟨?_, ?_, ?_⟩
  · simp only [GetSurfaceSize]
    rw [List.foldl_map, List.foldl_map]
    congr 1
    apply List.foldl_ext
    intro a l hl
    rw [ite_max, sizeLoop_width l (hz l hl).1]
  · simp only [GetSurfaceSize]
    rw [List.foldl_map]
    have key : ∀ (ls : List Loop) (a : Nat), (∀ l ∈ ls, l.total_height = 0) →
        ls.foldl (fun h l => h + (sizeLoop l).total_height) a =
          a + (ls.map maxHeight).sum := by
      intro ls
      induction ls with
      | nil => intro a _; simp
      | cons l ls ih =>
        intro a hz'
        simp only [List.foldl_cons, List.map_cons, List.sum_cons]
        rw [sizeLoop_height l (hz' l (List.mem_cons_self l ls))]
        rw [ih (a + maxHeight l) (fun l' hl' => hz' l' (List.mem_cons_of_mem _ hl'))]
        omega
    rw [key v.loops 0 (fun l hl => (hz l hl).2)]
    omega
  · intro l hl
    exact ⟨by simp [sumWidths, hl], by simp [maxHeight, hl]⟩

/-- Witness for C1 (amended) at the specification's sizing example: loop
width sums 10, 4, 7 and height maxima 5, 3, 8 give canvas 20 × 16. -/
theorem canvas_size_amended_witness :
    ((GetSurfaceSize exView).2.1 =
      2 * ((exView.loops.map (fun l => sumWidths l % 256)).foldl max 0)) ∧
    (GetSurfaceSize exView).2.2 = (exView.loops.map maxHeight).sum ∧
    (GetSurfaceSize exView).2.1 = 20 ∧ (GetSurfaceSize exView).2.2 = 16 :=
  ⟨(canvas_size_amended exView (by decide)).1,
   (canvas_size_amended exView (by decide)).2.1, by decide, by decide⟩

/-- Claim C3: a cel drawn inside loop `i` is written right-to-left from
raster x = `cel_x + width*2 - 1` with step -1 exactly when `is_mirrored`
is set and `unmirrored_loop_num` differs from `i`; in every other case —
including a mirrored cel whose `unmirrored_loop_num` equals `i` — it is
written left-to-right from `cel_x` with step +1. -/
theorem draw_direction :
    ∀ (c : Cel) (i : Nat) (cel_x cel_y y : Nat) (runs : List (Nat × Nat)),
      (c.is_mirrored ≠ 0 → c.unmirrored_loop_num ≠ i →
        rowStartStep c i cel_x = ((cel_x : Int) + (c.width : Int) * 2 - 1, -1) ∧
        (drawCelRow c i cel_x cel_y y runs).map Px.x =
          (List.range (2 * sumCounts runs)).map
            (fun k : Nat => ((cel_x : Int) + (c.width : Int) * 2 - 1) - (k : Int))) ∧
      (c.is_mirrored ≠ 0 → c.unmirrored_loop_num = i →
        rowStartStep c i cel_x = ((cel_x : Int), 1) ∧
        (drawCelRow c i cel_x cel_y y runs).map Px.x =
          (List.range (2 * sumCounts runs)).map
            (fun k : Nat => (cel_x : Int) + (k : Int))) ∧
      (c.is_mirrored = 0 →
        rowStartStep c i cel_x = ((cel_x : Int), 1) ∧
        (drawCelRow c i cel_x cel_y y runs).map Px.x =
          (List.range (2 * sumCounts runs)).map
            (fun k : Nat => (cel_x : Int) + (k : Int))) := by
  intro c i cel_x cel_y y runs
  refine ⟨fun hm hu => ?_, fun hm hu => ?_, fun hm => ?_⟩
  · have hcond : c.is_mirrored ≠ 0 ∧ c.unmirrored_loop_num ≠ i := ⟨hm, hu⟩
    have hss : rowStartStep c i cel_x =
        ((cel_x : Int) + (c.width : Int) * 2 - 1, -1) := by
      simp only [rowStartStep, if_pos hcond]
    refine ⟨hss, ?_⟩
    simp only [drawCelRow, hss]
    rw [drawRuns_map_x]
    apply List.map_congr_left
    intro k _
    ring
  · have hcond : ¬(c.is_mirrored ≠ 0 ∧ c.unmirrored_loop_num ≠ i) := by
      simp [hu]
    have hss : rowStartStep c i cel_x = ((cel_x : Int), 1) := by
      simp only [rowStartStep, if_neg hcond]
    refine ⟨hss, ?_⟩
    simp only [drawCelRow, hss]
    rw [drawRuns_map_x]
    apply List.map_congr_left
    intro k _
    ring
  · have hcond : ¬(c.is_mirrored ≠ 0 ∧ c.unmirrored_loop_num ≠ i) := by
      simp [hm]
    have hss : rowStartStep c i cel_x = ((cel_x : Int), 1) := by
      simp only [rowStartStep, if_neg hcond]
    refine ⟨hss, ?_⟩
    simp only [drawCelRow, hss]
    rw [drawRuns_map_x]
    apply List.map_congr_left
    intro k _
    ring

/-- Witness for C3: the mirrored width-2 cel referencing loop 0, drawn
inside loop 1 at `cel_x` = 4, starts at raster x = 4 + 2*2 - 1 = 7 and
steps right-to-left. -/
theorem draw_direction_witness :
    mirrorCel.is_mirrored ≠ 0 ∧ mirrorCel.unmirrored_loop_num ≠ 1 ∧
    rowStartStep mirrorCel 1 4 = ((4 : Int) + (mirrorCel.width : Int) * 2 - 1, -1) ∧
    (drawCelRow mirrorCel 1 4 0 0 [(5, 1)]).map Px.x =
      (List.range (2 * sumCounts [(5, 1)])).map
        (fun k : Nat => ((4 : Int) + (mirrorCel.width : Int) * 2 - 1) - (k : Int)) := by
  have h := (draw_direction mirrorCel 1 4 0 0 [(5, 1)]).1 (by decide) (by decide)
  exact ⟨by decide, by decide, h.1, h.2⟩

/-- A stored byte is always below 256. -/
theorem u8At_lt (s : Src) (p : Nat) : u8At s p < 256 :=
  Nat.mod_lt _ (by omega)

/-- An in-bounds one-byte read returns the stored byte and advances. -/
theorem readU8_in (s : Src) (pos old : Nat) (h : pos + 1 ≤ s.size) :
    readU8 s pos old = (u8At s pos, pos + 1) := by
  simp [readU8, h]

/-- An in-bounds two-byte read returns the little-endian value and
advances by two. -/
theorem readU16_in (s : Src) (pos old : Nat) (h : pos + 2 ≤ s.size) :
    readU16 s pos old = (u16At s pos, pos + 2) := by
  simp [readU16, h]

/-- An in-bounds sequence of `n` two-byte reads returns the little-endian
values at `pos, pos + 2, …` in order. -/
theorem readU16List_in (s : Src) :
    ∀ (n pos : Nat), pos + 2 * n ≤ s.size →
      readU16List s pos n =
        ((List.range n).map (fun k => u16At s (pos + 2 * k)), pos + 2 * n) := by
  intro n
  induction n with
  | zero => intro pos h; simp [readU16List]
  | succ n ih =>
    intro pos h
    have h1 : pos + 2 ≤ s.size := by omega
    have h2 : pos + 2 + 2 * n ≤ s.size := by omega
    simp only [readU16List, readU16_in s pos 0 h1, ih (pos + 2) h2]
    rw [Prod.mk.injEq]
    constructor
    · rw [List.range_succ_eq_map, List.map_cons, List.map_map]
      rw [List.cons.injEq]
      constructor
      · simp
      apply List.map_congr_left
      intro k _
      simp only [Function.comp_apply]
      congr 1
      omega
    · omega

set_option maxRecDepth 4096 in
/-- The masks of main.c agree with the bit fields the format defines, for
any byte value. -/
theorem info_masks :
    ∀ m : Nat, m < 256 →
      (m &&& 0x80) >>> 7 = m / 128 ∧ (m &&& 0x70) >>> 4 = m / 16 % 8 ∧
      m &&& 0x0F = m % 16 := by decide

/-- An in-bounds cel-header read (no 16-bit wrap of the data offset)
produces exactly the header the format describes at `h`. -/
theorem decodeCel_in (s : Src) (h : Nat) (hh : h + 3 ≤ s.size)
    (hw : h + 3 < 65536) :
    decodeCel s h =
      { header_offset := h
        data_offset := h + 3
        width := u8At s h
        height := u8At s (h + 1)
        transparency_color := u8At s (h + 2) % 16
        is_mirrored := u8At s (h + 2) / 128
        unmirrored_loop_num := u8At s (h + 2) / 16 % 8 } := by
  have h1 : h + 1 ≤ s.size := by omega
  have h2 : h + 1 + 1 ≤ s.size := by omega
  have h3 : h + 1 + 1 + 1 ≤ s.size := by omega
  have hm := info_masks (u8At s (h + 1 + 1)) (u8At_lt s (h + 1 + 1))
  simp only [decodeCel, readU8_in s h 0 h1, readU8_in s (h + 1) 0 h2,
    readU8_in s (h + 1 + 1) 0 h3]
  rw [Cel.mk.injEq]
  refine ⟨rfl, ?_, rfl, rfl, ?_, ?_, ?_⟩
  · rw [show h + 1 + 1 + 1 = h + 3 from by ring]
    exact Nat.mod_eq_of_lt hw
  · rw [hm.2.2, show h + 1 + 1 = h + 2 from by ring]
  · rw [hm.1, show h + 1 + 1 = h + 2 from by ring]
  · rw [hm.2.1, show h + 1 + 1 = h + 2 from by ring]

/-- An in-bounds loop read (cel count, relative offsets, headers, with no
16-bit wrap of the absolute offsets) produces exactly the loop the format
describes at `off`. -/
theorem decodeLoop_in (s : Src) (off : Nat)
    (hnc : off + 1 + 2 * u8At s off ≤ s.size)
    (hc : ∀ j, j < u8At s off →
      off + u16At s (off + 1 + 2 * j) + 3 ≤ s.size ∧
      off + u16At s (off + 1 + 2 * j) + 3 < 65536) :
    decodeLoop s off =
      { offset := off
        total_width := 0
        total_height := 0
        cels := (List.range (u8At s off)).map (fun j =>
          let h := off + u16At s (off + 1 + 2 * j)
          { header_offset := h
            data_offset := h + 3
            width := u8At s h
            height := u8At s (h + 1)
            transparency_color := u8At s (h + 2) % 16
            is_mirrored := u8At s (h + 2) / 128
            unmirrored_loop_num := u8At s (h + 2) / 16 % 8 }) } := by
  have h1 : off + 1 ≤ s.size := by omega
  simp only [decodeLoop, readU8_in s off 0 h1,
    readU16List_in s (u8At s off) (off + 1) hnc, List.map_map]
  rw [Loop.mk.injEq]
  refine ⟨rfl, rfl, rfl, ?_⟩
  apply List.map_congr_left
  intro j hj
  have hj' : j < u8At s off := List.mem_range.mp hj
  have hcj := hc j hj'
  simp only [Function.comp_apply]
  have hwrap : (off + u16At s (off + 1 + 2 * j)) % 65536 =
      off + u16At s (off + 1 + 2 * j) := Nat.mod_eq_of_lt (by omega)
  rw [hwrap, decodeCel_in s _ (by omega) (by omega)]

/-- Claim C5: whenever every read of the structural decode is in bounds
and no absolute cel offset overflows 16 bits, `ViewToBMP`'s decode phase
produces exactly the layout the format describes: `num_loops` at offset
2, little-endian u16 loop offsets from offset 5, per-loop cel counts and
relative cel offsets made absolute by `loop.offset + relative_offset`,
3-byte cel headers decomposed as bit 7 = `is_mirrored`, bits 6–4 =
`unmirrored_loop_num`, bits 3–0 = `transparency_color`, and
`data_offset` = the position just after the header. -/
theorem decoder_layout (s : Src)
    (hoffs : 5 + 2 * u8At s 2 ≤ s.size)
    (hloops : ∀ i, i < u8At s 2 →
      u16At s (5 + 2 * i) + 1 + 2 * u8At s (u16At s (5 + 2 * i)) ≤ s.size)
    (hcels : ∀ i, i < u8At s 2 → ∀ j, j < u8At s (u16At s (5 + 2 * i)) →
      u16At s (5 + 2 * i) + u16At s (u16At s (5 + 2 * i) + 1 + 2 * j) + 3 ≤ s.size ∧
      u16At s (5 + 2 * i) + u16At s (u16At s (5 + 2 * i) + 1 + 2 * j) + 3 < 65536) :
    decodeView s = viewSpec s := by
  have h2' : 2 + 1 ≤ s.size := by omega
  simp only [decodeView, readU8_in s 2 0 h2',
    readU16List_in s (u8At s 2) 5 hoffs, List.map_map, viewSpec]
  rw [View.mk.injEq]
  apply List.map_congr_left
  intro i hi
  have hi' : i < u8At s 2 := List.mem_range.mp hi
  simp only [Function.comp_apply]
  rw [decodeLoop_in s (u16At s (5 + 2 * i)) (hloops i hi') (hcels i hi')]

/-- Witness for C5: on the 15-byte well-formed test file the decoded view
is exactly the one the format layout describes. -/
theorem decoder_layout_witness : decodeView testSrc = viewSpec testSrc :=
  decoder_layout testSrc (by decide) (by decide) (by decide)
